import Mathlib

set_option autoImplicit false

namespace SellerApis

/-- A row of the authoritative watch-remnant feed (an element of
`watch_remnants` in the source).  The code reads exactly three columns of
each row: "Код" (the SKU code), "Количество" (the quantity) and "Цена"
(the price), and handles each through `str(...)`, so all three are
modelled as strings. -/
structure RemnantRecord where
  kod : String
  kolichestvo : String
  tsena : String
deriving Repr, DecidableEq

/-- Value of a list of decimal digits read left to right, the number a
digit-only string denotes. -/
def digitsToNat (l : List Char) : Nat :=
  l.foldl (fun acc c => 10 * acc + (c.toNat - Char.toNat (Char.ofNat 48))) 0

/-- Model of Python `int()` applied to a string, as the source uses it in
`int(watch.get("Количество"))` and `int(price_conversion(...))`: an
optional sign followed by a nonempty run of ASCII digits parses to that
integer; everything else raises ValueError, modelled as `none`.
Surrounding whitespace and underscore digit grouping, which Python also
accepts, never occur in the data this development reasons about and are
outside the model. -/
def pythonIntAux : List Char → Option Int
  | [] => none
  | c :: cs =>
    if c = Char.ofNat 45 then
      if cs ≠ [] ∧ cs.all Char.isDigit then some (-(digitsToNat cs : Int)) else none
    else if c = Char.ofNat 43 then
      if cs ≠ [] ∧ cs.all Char.isDigit then some ((digitsToNat cs : Int)) else none
    else if (c :: cs).all Char.isDigit then some ((digitsToNat (c :: cs) : Int)) else none

/-- Python `int()` on the character list of the string. -/
def pythonInt (s : String) : Option Int :=
  pythonIntAux s.data

/-- The quantity-to-stock threshold rule written, textually identically,
in both seller.create_stocks and market.create_stocks:
`count == ">10"` gives 100, `count == "1"` gives 0, otherwise
`int(quantity)`; `none` models the ValueError that `int()` raises on an
unparseable quantity. -/
def stockFromQuantity (q : String) : Option Int :=
  if q = ">10" then some 100
  else if q = "1" then some 0
  else pythonInt q

namespace Seller

/-- One element of the list built by seller.create_stocks: the dict
`{"offer_id": ..., "stock": ...}`. -/
structure SellerStock where
  offer_id : String
  stock : Int
deriving Repr, DecidableEq

/-- First loop of seller.create_stocks (source lines 216 to 226): walk
the feed; a record whose code is in the current offer_ids appends an
entry and removes that code from offer_ids (Python `list.remove` drops
the first occurrence of the value, as `List.erase` does).  Returns the
matched entries together with the final state of the offer_ids list;
`none` models the ValueError raised by `int()` on an unparseable
quantity. -/
def matchLoop : List RemnantRecord → List String → Option (List SellerStock × List String)
  | [], offer_ids => some ([], offer_ids)
  | w :: ws, offer_ids =>
    if w.kod ∈ offer_ids then
      match stockFromQuantity w.kolichestvo with
      | none => none
      | some st =>
        match matchLoop ws (offer_ids.erase w.kod) with
        | none => none
        | some (entries, rest) => some (⟨w.kod, st⟩ :: entries, rest)
    else matchLoop ws offer_ids

/-- seller.create_stocks.  The Python function mutates the caller's
offer_ids list in place, so the embedding returns the pair
(returned stocks list, final state of the offer_ids list), keeping the
mutation observable.  The second loop (source lines 228 to 229) appends a
zero-stock entry for every offer id left in the working set. -/
def create_stocks (watch_remnants : List RemnantRecord) (offer_ids : List String) :
    Option (List SellerStock × List String) :=
  match matchLoop watch_remnants offer_ids with
  | none => none
  | some (matched, rest) =>
    some (matched ++ rest.map (fun oid => ⟨oid, 0⟩), rest)

/-- Python `price.split(".")[0]`: the part of the string before the first
dot, the whole string when no dot occurs. -/
def beforeFirstDot : List Char → List Char
  | [] => []
  | c :: cs => if c = Char.ofNat 46 then [] else c :: beforeFirstDot cs

/-- seller.price_conversion:
`re.sub("[^0-9]", "", price.split(".")[0])` — keep only the ASCII decimal
digits of the part before the first dot. -/
def price_conversion (price : String) : String :=
  String.mk ((beforeFirstDot price.data).filter Char.isDigit)

/-- One element of the list built by seller.create_prices. -/
structure SellerPrice where
  auto_action_enabled : String
  currency_code : String
  offer_id : String
  old_price : String
  price : String
deriving Repr, DecidableEq

/-- seller.create_prices (source lines 247 to 258): one entry per feed
record whose code is in offer_ids.  Unlike create_stocks, this function
never removes anything from offer_ids. -/
def create_prices : List RemnantRecord → List String → List SellerPrice
  | [], _ => []
  | w :: ws, offer_ids =>
    if w.kod ∈ offer_ids then
      ⟨"UNKNOWN", "RUB", w.kod, "0", price_conversion w.tsena⟩ :: create_prices ws offer_ids
    else create_prices ws offer_ids

/-- seller.divide: `for i in range(0, len(lst), n): yield lst[i : i + n]`.
For n ≥ 1 the range has ceiling of len / n elements, which is
(len + n - 1) / n in natural-number division. -/
def divide {α : Type} (lst : List α) (n : Nat) : List (List α) :=
  (List.range ((lst.length + n - 1) / n)).map (fun i => (lst.drop (i * n)).take n)

/-- seller.upload_stocks with the network collaborators abstracted away:
offer_ids stands for the value get_offer_ids returned, and the
update_stocks submissions do not affect the returned value.  Returns the
pair (not_empty, stocks) of source lines 343 to 347. -/
def upload_stocks (watch_remnants : List RemnantRecord) (offer_ids : List String) :
    Option (List SellerStock × List SellerStock) :=
  match create_stocks watch_remnants offer_ids with
  | none => none
  | some (stocks, _) => some (stocks.filter (fun s => s.stock != 0), stocks)

/-- The create_stocks-then-create_prices sequence of seller.main (source
lines 355 to 364): both calls receive the one offer_ids list fetched at
line 355, so create_prices sees that list as create_stocks left it. -/
def main_reconcile (watch_remnants : List RemnantRecord) (offer_ids : List String) :
    Option (List SellerStock × List SellerPrice) :=
  match create_stocks watch_remnants offer_ids with
  | none => none
  | some (stocks, offer_ids2) => some (stocks, create_prices watch_remnants offer_ids2)

end Seller

namespace Market

/-- One element of the "items" list inside a market stock entry; `typ`
stands for the source key "type" (always "FIT"). -/
structure MarketItem where
  count : Int
  typ : String
  updatedAt : String
deriving Repr, DecidableEq

/-- One element of the list built by market.create_stocks. -/
structure MarketStock where
  sku : String
  warehouseId : String
  items : List MarketItem
deriving Repr, DecidableEq

/-- First loop of market.create_stocks (source lines 188 to 210): same
match-and-remove walk as the seller channel, but each entry carries the
warehouse id and a timestamp.  The utcnow-based `date` string is an
explicit parameter of the model. -/
def matchLoop (warehouse_id date : String) :
    List RemnantRecord → List String → Option (List MarketStock × List String)
  | [], offer_ids => some ([], offer_ids)
  | w :: ws, offer_ids =>
    if w.kod ∈ offer_ids then
      match stockFromQuantity w.kolichestvo with
      | none => none
      | some st =>
        match matchLoop warehouse_id date ws (offer_ids.erase w.kod) with
        | none => none
        | some (entries, rest) =>
          some (⟨w.kod, warehouse_id, [⟨st, "FIT", date⟩]⟩ :: entries, rest)
    else matchLoop warehouse_id date ws offer_ids

/-- market.create_stocks, returning (stocks list, final offer_ids list)
like the seller model; the second loop (source lines 212 to 225) appends
a count-0 entry per remaining offer id. -/
def create_stocks (watch_remnants : List RemnantRecord) (offer_ids : List String)
    (warehouse_id date : String) : Option (List MarketStock × List String) :=
  match matchLoop warehouse_id date watch_remnants offer_ids with
  | none => none
  | some (matched, rest) =>
    some (matched ++ rest.map (fun oid => ⟨oid, warehouse_id, [⟨0, "FIT", date⟩]⟩), rest)

/-- The "price" sub-dict of a market price entry. -/
structure MarketPriceValue where
  value : Int
  currencyId : String
deriving Repr, DecidableEq

/-- One element of the list built by market.create_prices. -/
structure MarketPrice where
  id : String
  price : MarketPriceValue
deriving Repr, DecidableEq

/-- market.create_prices (source lines 243 to 259): like the seller
variant but the price is `int(price_conversion(...))`; `none` models the
ValueError when price_conversion yields a digit-free string.  No removal
from offer_ids here either. -/
def create_prices : List RemnantRecord → List String → Option (List MarketPrice)
  | [], _ => some []
  | w :: ws, offer_ids =>
    if w.kod ∈ offer_ids then
      match pythonInt (Seller.price_conversion w.tsena) with
      | none => none
      | some v =>
        match create_prices ws offer_ids with
        | none => none
        | some ps => some (⟨w.kod, ⟨v, "RUR"⟩⟩ :: ps)
    else create_prices ws offer_ids

/-- market.upload_stocks with the network collaborators abstracted away.
The filter keeps the stocks whose `items[0].count` is nonzero; an empty
items list, which would raise IndexError in Python and never occurs in
create_stocks output, is mapped to false. -/
def upload_stocks (watch_remnants : List RemnantRecord) (offer_ids : List String)
    (warehouse_id date : String) : Option (List MarketStock × List MarketStock) :=
  match create_stocks watch_remnants offer_ids warehouse_id date with
  | none => none
  | some (stocks, _) =>
    some (stocks.filter (fun s =>
      match s.items with
      | i :: _ => i.count != 0
      | [] => false), stocks)

end Market

/-- Proof device: a seller stock entry determines the market stock entry
built from the same feed record, given the warehouse id and timestamp. -/
def toMarketStock (wh date : String) (e : Seller.SellerStock) : Market.MarketStock :=
  ⟨e.offer_id, wh, [⟨e.stock, "FIT", date⟩]⟩

end SellerApis
namespace SellerApis

theorem pythonIntAux_digits (l : List Char) (hne : l ≠ []) (hd : l.all Char.isDigit) :
    pythonIntAux l = some (digitsToNat l) := by
  cases l with
  | nil => exact absurd rfl hne
  | cons c cs =>
    have hc : Char.isDigit c := by
      rw [List.all_cons, Bool.and_eq_true] at hd
      exact hd.1
    have h45 : c ≠ Char.ofNat 45 := by
      intro h; subst h; simp [Char.isDigit] at hc
    have h43 : c ≠ Char.ofNat 43 := by
      intro h; subst h; simp [Char.isDigit] at hc
    simp [pythonIntAux, h45, h43, hd]

theorem pythonInt_digits (s : String) (hne : s.data ≠ []) (hd : s.data.all Char.isDigit) :
    pythonInt s = some (digitsToNat s.data) :=
  pythonIntAux_digits s.data hne hd

theorem stockFromQuantity_digits (q : String) (h1 : q ≠ "1") (hne : q.data ≠ [])
    (hd : q.data.all Char.isDigit) :
    stockFromQuantity q = some (digitsToNat q.data) := by
  have h10 : q ≠ ">10" := by
    intro h; subst h; simp [List.all_cons, String.data, Char.isDigit] at hd
  rw [stockFromQuantity, if_neg h10, if_neg h1]
  exact pythonInt_digits q hne hd

theorem stockFromQuantity_isSome (q : String)
    (h : q = ">10" ∨ q = "1" ∨ (q.data ≠ [] ∧ q.data.all Char.isDigit)) :
    (stockFromQuantity q).isSome := by
  rcases h with h | h | ⟨hne, hd⟩
  · subst h; decide
  · subst h; decide
  · by_cases h10 : q = ">10"
    · subst h10; decide
    · by_cases h1 : q = "1"
      · subst h1; decide
      · rw [stockFromQuantity_digits q h1 hne hd]; rfl

end SellerApis
namespace SellerApis

theorem matchLoop_perm : ∀ (ws : List RemnantRecord) (offers : List String)
    (es : List Seller.SellerStock) (rest : List String),
    Seller.matchLoop ws offers = some (es, rest) →
    offers.Perm (es.map (fun e => e.offer_id) ++ rest)
  | [], offers, es, rest, h => by
    simp [Seller.matchLoop] at h
    obtain ⟨h1, h2⟩ := h
    subst h1; subst h2; simp
  | w :: ws, offers, es, rest, h => by
    rw [Seller.matchLoop] at h
    by_cases hm : w.kod ∈ offers
    · rw [if_pos hm] at h
      cases hq : stockFromQuantity w.kolichestvo with
      | none => rw [hq] at h; simp at h
      | some st =>
        rw [hq] at h
        cases hr : Seller.matchLoop ws (offers.erase w.kod) with
        | none => rw [hr] at h; simp at h
        | some p =>
          obtain ⟨es2, rest2⟩ := p
          rw [hr] at h
          simp at h
          obtain ⟨h1, h2⟩ := h
          subst h1; subst h2
          have ih := matchLoop_perm ws (offers.erase w.kod) es2 rest2 hr
          have step : offers.Perm (w.kod :: offers.erase w.kod) := List.perm_cons_erase hm
          refine step.trans ?_
          simpa using ih.cons w.kod
    · rw [if_neg hm] at h
      exact matchLoop_perm ws offers es rest h

end SellerApis
namespace SellerApis

theorem matchLoop_isSome : ∀ (ws : List RemnantRecord) (offers : List String),
    (∀ w ∈ ws, w.kod ∈ offers → (stockFromQuantity w.kolichestvo).isSome) →
    (Seller.matchLoop ws offers).isSome
  | [], offers, _ => by simp [Seller.matchLoop]
  | w :: ws, offers, hq => by
    rw [Seller.matchLoop]
    by_cases hm : w.kod ∈ offers
    · rw [if_pos hm]
      have hs := hq w (by simp) hm
      cases hqe : stockFromQuantity w.kolichestvo with
      | none => rw [hqe] at hs; simp at hs
      | some st =>
        have ih := matchLoop_isSome ws (offers.erase w.kod) (by
          intro w2 hw2 hmem
          exact hq w2 (by simp [hw2]) (List.mem_of_mem_erase hmem))
        cases hr : Seller.matchLoop ws (offers.erase w.kod) with
        | none => rw [hr] at ih; simp at ih
        | some p => obtain ⟨es2, rest2⟩ := p; simp
    · rw [if_neg hm]
      exact matchLoop_isSome ws offers (by
        intro w2 hw2 hmem
        exact hq w2 (by simp [hw2]) hmem)

theorem matchLoop_rest : ∀ (ws : List RemnantRecord) (offers : List String)
    (es : List Seller.SellerStock) (rest : List String),
    offers.Nodup →
    Seller.matchLoop ws offers = some (es, rest) →
    rest = offers.filter (fun oid => ws.all (fun w => w.kod != oid))
  | [], offers, es, rest, _, h => by
    simp [Seller.matchLoop] at h
    simp [← h.2]
  | w :: ws, offers, es, rest, hnd, h => by
    rw [Seller.matchLoop] at h
    by_cases hm : w.kod ∈ offers
    · rw [if_pos hm] at h
      cases hq : stockFromQuantity w.kolichestvo with
      | none => rw [hq] at h; simp at h
      | some st =>
        rw [hq] at h
        cases hr : Seller.matchLoop ws (offers.erase w.kod) with
        | none => rw [hr] at h; simp at h
        | some p =>
          obtain ⟨es2, rest2⟩ := p
          rw [hr] at h
          simp at h
          have ih := matchLoop_rest ws (offers.erase w.kod) es2 rest2 (hnd.erase w.kod) hr
          rw [← h.2, ih, List.Nodup.erase_eq_filter hnd, List.filter_filter]
          refine List.filter_congr ?_
          intro a _
          simp only [List.all_cons]
          rw [Bool.and_comm]
          have hbne : (a != w.kod) = (w.kod != a) := by
            simp only [bne, Bool.beq_comm]
          rw [hbne]
    · rw [if_neg hm] at h
      have ih := matchLoop_rest ws offers es rest hnd h
      rw [ih]
      refine (List.filter_congr ?_).symm
      intro a ha
      simp only [List.all_cons]
      have : w.kod ≠ a := fun he => hm (he ▸ ha)
      simp [this]

end SellerApis
namespace SellerApis

theorem market_matchLoop_eq (wh date : String) : ∀ (ws : List RemnantRecord)
    (offers : List String),
    Market.matchLoop wh date ws offers =
      (Seller.matchLoop ws offers).map (fun p => (p.1.map (toMarketStock wh date), p.2))
  | [], offers => by simp [Market.matchLoop, Seller.matchLoop]
  | w :: ws, offers => by
    rw [Market.matchLoop, Seller.matchLoop]
    by_cases hm : w.kod ∈ offers
    · rw [if_pos hm, if_pos hm]
      cases hq : stockFromQuantity w.kolichestvo with
      | none => simp
      | some st =>
        rw [market_matchLoop_eq wh date ws (offers.erase w.kod)]
        cases hr : Seller.matchLoop ws (offers.erase w.kod) with
        | none => simp
        | some p => obtain ⟨es2, rest2⟩ := p; simp [toMarketStock]
    · rw [if_neg hm, if_neg hm]
      exact market_matchLoop_eq wh date ws offers

theorem market_create_stocks_eq (wh date : String) (ws : List RemnantRecord)
    (offers : List String) :
    Market.create_stocks ws offers wh date =
      (Seller.create_stocks ws offers).map (fun p => (p.1.map (toMarketStock wh date), p.2)) := by
  rw [Market.create_stocks, Seller.create_stocks, market_matchLoop_eq]
  cases hr : Seller.matchLoop ws offers with
  | none => simp
  | some p =>
    obtain ⟨es, rest⟩ := p
    simp [toMarketStock, List.map_map]

end SellerApis
namespace SellerApis

theorem map_offerId_zero (rest : List String) :
    (rest.map (fun oid => (⟨oid, 0⟩ : Seller.SellerStock))).map (fun e => e.offer_id) = rest := by
  induction rest with
  | nil => rfl
  | cons a l ih => simp [ih]

theorem map_sku_toMarket (wh date : String) (l : List Seller.SellerStock) :
    (l.map (toMarketStock wh date)).map (fun e => e.sku) = l.map (fun e => e.offer_id) := by
  induction l with
  | nil => rfl
  | cons a l ih => simp [toMarketStock, ih]

/-- Claim C1: for a feed whose matched quantities are well formed and a
duplicate-free remote SKU list, create_stocks returns, in both channels,
exactly one stock entry per initial offer id: same length, same SKU set,
no duplicate SKU. -/
theorem claim_C1 (watch_remnants : List RemnantRecord) (offer_ids : List String)
    (wh date : String)
    (hnd : offer_ids.Nodup)
    (hq : ∀ w ∈ watch_remnants, w.kod ∈ offer_ids →
      w.kolichestvo = ">10" ∨ w.kolichestvo = "1" ∨
        (w.kolichestvo.data ≠ [] ∧ w.kolichestvo.data.all Char.isDigit)) :
    ∃ (stocks : List Seller.SellerStock) (rest : List String)
      (mstocks : List Market.MarketStock),
      Seller.create_stocks watch_remnants offer_ids = some (stocks, rest) ∧
      Market.create_stocks watch_remnants offer_ids wh date = some (mstocks, rest) ∧
      stocks.length = offer_ids.length ∧
      (∀ s, s ∈ stocks.map (fun e => e.offer_id) ↔ s ∈ offer_ids) ∧
      (stocks.map (fun e => e.offer_id)).Nodup ∧
      mstocks.map (fun e => e.sku) = stocks.map (fun e => e.offer_id) ∧
      mstocks.length = offer_ids.length ∧
      (∀ s, s ∈ mstocks.map (fun e => e.sku) ↔ s ∈ offer_ids) ∧
      (mstocks.map (fun e => e.sku)).Nodup := by
  have hsome := matchLoop_isSome watch_remnants offer_ids (by
    intro w hw hm
    exact stockFromQuantity_isSome w.kolichestvo (hq w hw hm))
  cases hr : Seller.matchLoop watch_remnants offer_ids with
  | none => rw [hr] at hsome; simp at hsome
  | some p =>
    obtain ⟨es, rest⟩ := p
    have hperm := matchLoop_perm watch_remnants offer_ids es rest hr
    have hcs : Seller.create_stocks watch_remnants offer_ids =
        some (es ++ rest.map (fun oid => (⟨oid, 0⟩ : Seller.SellerStock)), rest) := by
      rw [Seller.create_stocks, hr]
    have hmapS : ((es ++ rest.map (fun oid => (⟨oid, 0⟩ : Seller.SellerStock))).map
        (fun e => e.offer_id)) = es.map (fun e => e.offer_id) ++ rest := by
      rw [List.map_append, map_offerId_zero]
    have hms : Market.create_stocks watch_remnants offer_ids wh date =
        some ((es ++ rest.map (fun oid => (⟨oid, 0⟩ : Seller.SellerStock))).map
          (toMarketStock wh date), rest) := by
      rw [market_create_stocks_eq, hcs]
      rfl
    have hmapM : (((es ++ rest.map (fun oid => (⟨oid, 0⟩ : Seller.SellerStock))).map
        (toMarketStock wh date)).map (fun e => e.sku)) =
        es.map (fun e => e.offer_id) ++ rest := by
      rw [map_sku_toMarket, hmapS]
    refine ⟨_, rest, _, hcs, hms, ?_, ?_, ?_, ?_, ?_, ?_, ?_⟩
    · have h1 := congrArg List.length hmapS
      rw [List.length_map] at h1
      rw [h1, ← hperm.length_eq]
    · intro s
      rw [hmapS]
      exact hperm.mem_iff.symm
    · rw [hmapS]
      exact hperm.nodup hnd
    · rw [map_sku_toMarket]
    · have h1 := congrArg List.length hmapM
      rw [List.length_map] at h1
      rw [h1, ← hperm.length_eq]
    · intro s
      rw [hmapM]
      exact hperm.mem_iff.symm
    · rw [hmapM]
      exact hperm.nodup hnd

/-- Claim C1 witness at the end-to-end scenario of the spec. -/
theorem claim_C1_witness :
    (["A1", "A3"] : List String).Nodup ∧
    (∃ (stocks : List Seller.SellerStock) (rest : List String)
      (mstocks : List Market.MarketStock),
      Seller.create_stocks [⟨"A1", ">10", "100.00 x"⟩, ⟨"A2", "1", "50.00 x"⟩] ["A1", "A3"] =
        some (stocks, rest) ∧
      Market.create_stocks [⟨"A1", ">10", "100.00 x"⟩, ⟨"A2", "1", "50.00 x"⟩] ["A1", "A3"]
        "WH" "D" = some (mstocks, rest) ∧
      stocks.length = (["A1", "A3"] : List String).length ∧
      (∀ s, s ∈ stocks.map (fun e => e.offer_id) ↔ s ∈ (["A1", "A3"] : List String)) ∧
      (stocks.map (fun e => e.offer_id)).Nodup ∧
      mstocks.map (fun e => e.sku) = stocks.map (fun e => e.offer_id) ∧
      mstocks.length = (["A1", "A3"] : List String).length ∧
      (∀ s, s ∈ mstocks.map (fun e => e.sku) ↔ s ∈ (["A1", "A3"] : List String)) ∧
      (mstocks.map (fun e => e.sku)).Nodup) :=
  ⟨by decide, claim_C1 [⟨"A1", ">10", "100.00 x"⟩, ⟨"A2", "1", "50.00 x"⟩] ["A1", "A3"]
    "WH" "D" (by decide) (by decide)⟩

end SellerApis
namespace SellerApis

theorem create_prices_nil : ∀ (ws : List RemnantRecord) (offers : List String),
    (∀ w ∈ ws, w.kod ∉ offers) → Seller.create_prices ws offers = []
  | [], _, _ => rfl
  | w :: ws, offers, h => by
    rw [Seller.create_prices, if_neg (h w (by simp))]
    exact create_prices_nil ws offers (fun w2 hw2 => h w2 (by simp [hw2]))

/-- Claim C3 counterexample: seller.create_stocks does change the caller's
offer_ids list; after the call on a matching one-record feed, the list
that started as ["A1"] is empty. -/
theorem claim_C3_cex :
    (Seller.create_stocks [⟨"A1", ">10", "x"⟩] ["A1"]).map (fun p => p.2) = some [] ∧
    (some [] : Option (List String)) ≠ some ["A1"] := by
  constructor
  · decide
  · decide

/-- Claim C3 as amended: create_stocks in either channel removes every matched
SKU from the caller's offer_ids list, leaving exactly the offer ids whose
code occurs in no feed record; a caller that afterwards hands the same
list to create_prices (as seller.main does) therefore gets no price
entries at all. -/
theorem claim_C3 (ws : List RemnantRecord) (offers : List String) (wh date : String)
    (hnd : offers.Nodup)
    (hq : ∀ w ∈ ws, w.kod ∈ offers →
      w.kolichestvo = ">10" ∨ w.kolichestvo = "1" ∨
        (w.kolichestvo.data ≠ [] ∧ w.kolichestvo.data.all Char.isDigit)) :
    ∃ (stocks : List Seller.SellerStock) (mstocks : List Market.MarketStock),
      Seller.create_stocks ws offers =
        some (stocks, offers.filter (fun oid => ws.all (fun w => w.kod != oid))) ∧
      Market.create_stocks ws offers wh date =
        some (mstocks, offers.filter (fun oid => ws.all (fun w => w.kod != oid))) ∧
      Seller.create_prices ws (offers.filter (fun oid => ws.all (fun w => w.kod != oid))) = [] := by
  have hsome := matchLoop_isSome ws offers (by
    intro w hw hm
    exact stockFromQuantity_isSome w.kolichestvo (hq w hw hm))
  cases hr : Seller.matchLoop ws offers with
  | none => rw [hr] at hsome; simp at hsome
  | some p =>
    obtain ⟨es, rest⟩ := p
    have hrest := matchLoop_rest ws offers es rest hnd hr
    subst hrest
    refine ⟨es ++ (offers.filter (fun oid => ws.all (fun w => w.kod != oid))).map
        (fun oid => (⟨oid, 0⟩ : Seller.SellerStock)),
      (es ++ (offers.filter (fun oid => ws.all (fun w => w.kod != oid))).map
        (fun oid => (⟨oid, 0⟩ : Seller.SellerStock))).map (toMarketStock wh date), ?_, ?_, ?_⟩
    · rw [Seller.create_stocks, hr]
    · rw [market_create_stocks_eq, Seller.create_stocks, hr]
      rfl
    · refine create_prices_nil ws _ ?_
      intro w hw hmem
      rw [List.mem_filter] at hmem
      have hall := hmem.2
      rw [List.all_eq_true] at hall
      have := hall w hw
      simp at this

/-- Claim C3 witness: a feed record matching one of two offer ids leaves only
the unmatched id in the working set, and the follow-up create_prices on
that remainder is empty. -/
theorem claim_C3_witness :
    ∃ (stocks : List Seller.SellerStock) (mstocks : List Market.MarketStock),
      Seller.create_stocks [⟨"A1", ">10", "x"⟩] ["A1", "A3"] =
        some (stocks, (["A1", "A3"] : List String).filter
          (fun oid => [(⟨"A1", ">10", "x"⟩ : RemnantRecord)].all (fun w => w.kod != oid))) ∧
      Market.create_stocks [⟨"A1", ">10", "x"⟩] ["A1", "A3"] "WH" "D" =
        some (mstocks, (["A1", "A3"] : List String).filter
          (fun oid => [(⟨"A1", ">10", "x"⟩ : RemnantRecord)].all (fun w => w.kod != oid))) ∧
      Seller.create_prices [⟨"A1", ">10", "x"⟩] ((["A1", "A3"] : List String).filter
        (fun oid => [(⟨"A1", ">10", "x"⟩ : RemnantRecord)].all (fun w => w.kod != oid))) = [] :=
  claim_C3 [⟨"A1", ">10", "x"⟩] ["A1", "A3"] "WH" "D" (by decide) (by decide)

/-- Claim C9: whenever upload_stocks returns a pair (not_empty, stocks), the
second component is the full create_stocks output and the first is its
order-preserving filter to the entries with nonzero count, in either
channel. -/
theorem claim_C9 (ws : List RemnantRecord) (offers : List String) (wh date : String) :
    (∀ (ne stocks : List Seller.SellerStock),
      Seller.upload_stocks ws offers = some (ne, stocks) →
      (∃ rest, Seller.create_stocks ws offers = some (stocks, rest)) ∧
      ne = stocks.filter (fun s => s.stock != 0) ∧
      ne.Sublist stocks ∧
      (∀ s ∈ ne, s.stock ≠ 0) ∧
      (∀ s ∈ stocks, s.stock ≠ 0 → s ∈ ne)) ∧
    (∀ (ne stocks : List Market.MarketStock),
      Market.upload_stocks ws offers wh date = some (ne, stocks) →
      (∃ rest, Market.create_stocks ws offers wh date = some (stocks, rest)) ∧
      ne = stocks.filter (fun s =>
        match s.items with
        | i :: _ => i.count != 0
        | [] => false) ∧
      ne.Sublist stocks ∧
      (∀ s ∈ ne, ∀ i l, s.items = i :: l → i.count ≠ 0) ∧
      (∀ s ∈ stocks, ∀ i l, s.items = i :: l → i.count ≠ 0 → s ∈ ne)) := by
  constructor
  · intro ne stocks h
    rw [Seller.upload_stocks] at h
    cases hc : Seller.create_stocks ws offers with
    | none => rw [hc] at h; simp at h
    | some p =>
      obtain ⟨st, rest⟩ := p
      rw [hc] at h
      simp at h
      obtain ⟨h1, h2⟩ := h
      subst h2
      refine ⟨⟨rest, rfl⟩, h1.symm, ?_, ?_, ?_⟩
      · rw [← h1]
        exact List.filter_sublist st
      · intro s hs
        rw [← h1, List.mem_filter] at hs
        simpa using hs.2
      · intro s hs hnz
        rw [← h1, List.mem_filter]
        exact ⟨hs, by simpa using hnz⟩
  · intro ne stocks h
    rw [Market.upload_stocks] at h
    cases hc : Market.create_stocks ws offers wh date with
    | none => rw [hc] at h; simp at h
    | some p =>
      obtain ⟨st, rest⟩ := p
      rw [hc] at h
      simp at h
      obtain ⟨h1, h2⟩ := h
      subst h2
      refine ⟨⟨rest, rfl⟩, h1.symm, ?_, ?_, ?_⟩
      · rw [← h1]
        exact List.filter_sublist st
      · intro s hs i l hil
        rw [← h1, List.mem_filter] at hs
        have := hs.2
        rw [hil] at this
        simpa using this
      · intro s hs i l hil hnz
        rw [← h1, List.mem_filter]
        refine ⟨hs, ?_⟩
        rw [hil]
        simpa using hnz

/-- Claim C9 witness: concrete run of both channels with one in-stock and one
zeroed entry. -/
theorem claim_C9_witness :
    (([⟨"A1", 100⟩] : List Seller.SellerStock) =
      ([⟨"A1", 100⟩, ⟨"A3", 0⟩] : List Seller.SellerStock).filter (fun s => s.stock != 0)) ∧
    (([⟨"A1", 100⟩] : List Seller.SellerStock)).Sublist
      ([⟨"A1", 100⟩, ⟨"A3", 0⟩] : List Seller.SellerStock) :=
  ⟨(((claim_C9 [⟨"A1", ">10", "x"⟩] ["A1", "A3"] "WH" "D").1 [⟨"A1", 100⟩]
      [⟨"A1", 100⟩, ⟨"A3", 0⟩] (by decide)).2.1),
   (((claim_C9 [⟨"A1", ">10", "x"⟩] ["A1", "A3"] "WH" "D").1 [⟨"A1", 100⟩]
      [⟨"A1", 100⟩, ⟨"A3", 0⟩] (by decide)).2.2.1)⟩

end SellerApis
namespace SellerApis

theorem seller_create_prices_length : ∀ (ws : List RemnantRecord) (offers : List String),
    (Seller.create_prices ws offers).length = ws.countP (fun w => decide (w.kod ∈ offers))
  | [], _ => rfl
  | w :: ws, offers => by
    rw [Seller.create_prices, List.countP_cons]
    by_cases hm : w.kod ∈ offers
    · rw [if_pos hm]
      simp [seller_create_prices_length ws offers, hm]
    · rw [if_neg hm]
      simp [seller_create_prices_length ws offers, hm]

theorem market_create_prices_length : ∀ (ws : List RemnantRecord) (offers : List String)
    (ps : List Market.MarketPrice), Market.create_prices ws offers = some ps →
    ps.length = ws.countP (fun w => decide (w.kod ∈ offers))
  | [], offers, ps, h => by
    simp [Market.create_prices] at h
    simp [← h]
  | w :: ws, offers, ps, h => by
    rw [List.countP_cons]
    by_cases hm : w.kod ∈ offers
    · rw [Market.create_prices, if_pos hm] at h
      cases hv : pythonInt (Seller.price_conversion w.tsena) with
      | none => rw [hv] at h; simp at h
      | some v =>
        rw [hv] at h
        cases hp : Market.create_prices ws offers with
        | none => rw [hp] at h; simp at h
        | some ps2 =>
          rw [hp] at h
          simp at h
          rw [← h]
          simp [market_create_prices_length ws offers ps2 hp, hm]
    · rw [Market.create_prices, if_neg hm] at h
      simp [market_create_prices_length ws offers ps h, hm]

/-- Claim C4 counterexample: with a feed holding two records of the same code
present in offer_ids, seller.create_prices emits a price entry for both
occurrences, not only for the first. -/
theorem claim_C4_cex :
    Seller.create_prices [⟨"A1", "5", "100.00"⟩, ⟨"A1", "7", "200.00"⟩] ["A1"] =
      [⟨"UNKNOWN", "RUB", "A1", "0", "100"⟩, ⟨"UNKNOWN", "RUB", "A1", "0", "200"⟩] := by
  decide

/-- Claim C4 as amended: first occurrence wins in create_stocks (the duplicate
record is skipped, whatever its quantity), but create_prices, which never
removes anything from offer_ids, emits one entry per matching feed
record, duplicates included, in both channels. -/
theorem claim_C4 :
    (∀ (ws : List RemnantRecord) (offers : List String),
      (Seller.create_prices ws offers).length =
        ws.countP (fun w => decide (w.kod ∈ offers))) ∧
    (∀ (ws : List RemnantRecord) (offers : List String) (ps : List Market.MarketPrice),
      Market.create_prices ws offers = some ps →
      ps.length = ws.countP (fun w => decide (w.kod ∈ offers))) ∧
    (∀ (c q1 q2 p1 p2 wh date : String) (v : Int),
      stockFromQuantity q1 = some v →
      Seller.create_stocks [⟨c, q1, p1⟩, ⟨c, q2, p2⟩] [c] = some ([⟨c, v⟩], []) ∧
      Market.create_stocks [⟨c, q1, p1⟩, ⟨c, q2, p2⟩] [c] wh date =
        some ([⟨c, wh, [⟨v, "FIT", date⟩]⟩], [])) := by
  refine ⟨seller_create_prices_length, market_create_prices_length, ?_⟩
  intro c q1 q2 p1 p2 wh date v hv
  have hs : Seller.create_stocks [⟨c, q1, p1⟩, ⟨c, q2, p2⟩] [c] = some ([⟨c, v⟩], []) := by
    rw [Seller.create_stocks, Seller.matchLoop]
    simp [hv, Seller.matchLoop]
  refine ⟨hs, ?_⟩
  rw [market_create_stocks_eq, hs]
  simp [toMarketStock]

/-- Claim C4 witness: the amended statement at a concrete duplicate feed. -/
theorem claim_C4_witness :
    (Seller.create_prices [⟨"B2", "3", "10.0"⟩, ⟨"B2", "4", "20.0"⟩] ["B2"]).length =
      ([⟨"B2", "3", "10.0"⟩, (⟨"B2", "4", "20.0"⟩ : RemnantRecord)].countP
        (fun w => decide (w.kod ∈ (["B2"] : List String)))) ∧
    Seller.create_stocks [⟨"B2", "3", "10.0"⟩, ⟨"B2", "4", "20.0"⟩] ["B2"] =
      some ([⟨"B2", 3⟩], []) :=
  ⟨claim_C4.1 [⟨"B2", "3", "10.0"⟩, ⟨"B2", "4", "20.0"⟩] ["B2"],
   (claim_C4.2.2 "B2" "3" "4" "10.0" "20.0" "WH" "D" 3 (by decide)).1⟩

end SellerApis
namespace SellerApis

theorem matchLoop_none_of_bad : ∀ (l1 l2 : List RemnantRecord) (w : RemnantRecord)
    (offers : List String),
    w.kod ∈ offers →
    stockFromQuantity w.kolichestvo = none →
    (∀ r ∈ l1, r.kod ≠ w.kod) →
    Seller.matchLoop (l1 ++ w :: l2) offers = none
  | [], l2, w, offers, hmem, hbad, _ => by
    rw [List.nil_append, Seller.matchLoop, if_pos hmem, hbad]
  | r :: l1, l2, w, offers, hmem, hbad, hfirst => by
    rw [List.cons_append, Seller.matchLoop]
    by_cases hm : r.kod ∈ offers
    · rw [if_pos hm]
      cases hq : stockFromQuantity r.kolichestvo with
      | none => rfl
      | some st =>
        have hne : w.kod ≠ r.kod := Ne.symm (hfirst r (by simp))
        have hmem2 : w.kod ∈ offers.erase r.kod := (List.mem_erase_of_ne hne).mpr hmem
        rw [matchLoop_none_of_bad l1 l2 w (offers.erase r.kod) hmem2 hbad
          (fun r2 hr2 => hfirst r2 (by simp [hr2]))]
    · rw [if_neg hm]
      exact matchLoop_none_of_bad l1 l2 w offers hmem hbad
        (fun r2 hr2 => hfirst r2 (by simp [hr2]))

/-- Claim C10 counterexample: the second feed record has its code in the remote
SKU list and an unparseable quantity, yet create_stocks raises nothing,
because the first record already consumed the code: the malformed
duplicate is silently skipped in both channels. -/
theorem claim_C10_cex :
    pythonInt "abc" = none ∧ ("abc" : String) ≠ ">10" ∧ ("abc" : String) ≠ "1" ∧
    (⟨"A1", "abc", "p"⟩ : RemnantRecord) ∈
      [⟨"A1", "5", "p"⟩, (⟨"A1", "abc", "p"⟩ : RemnantRecord)] ∧
    ("A1" : String) ∈ (["A1"] : List String) ∧
    Seller.create_stocks [⟨"A1", "5", "p"⟩, ⟨"A1", "abc", "p"⟩] ["A1"] =
      some ([⟨"A1", 5⟩], []) ∧
    Market.create_stocks [⟨"A1", "5", "p"⟩, ⟨"A1", "abc", "p"⟩] ["A1"] "WH" "D" =
      some ([⟨"A1", "WH", [⟨5, "FIT", "D"⟩]⟩], []) := by
  decide

/-- Claim C10 as amended: a feed record whose code is still in the working set
when the record is reached — in particular any record with no earlier
same-code record — and whose quantity is neither threshold token nor a
parseable integer makes create_stocks raise ValueError and return no
list, in both channels; a malformed record whose code an earlier
duplicate already consumed is skipped instead. -/
theorem claim_C10 (l1 l2 : List RemnantRecord) (w : RemnantRecord)
    (offers : List String) (wh date : String)
    (hmem : w.kod ∈ offers)
    (h10 : w.kolichestvo ≠ ">10") (h1 : w.kolichestvo ≠ "1")
    (hbad : pythonInt w.kolichestvo = none)
    (hfirst : ∀ r ∈ l1, r.kod ≠ w.kod) :
    Seller.create_stocks (l1 ++ w :: l2) offers = none ∧
    Market.create_stocks (l1 ++ w :: l2) offers wh date = none := by
  have hq : stockFromQuantity w.kolichestvo = none := by
    rw [stockFromQuantity, if_neg h10, if_neg h1, hbad]
  have hml := matchLoop_none_of_bad l1 l2 w offers hmem hq hfirst
  constructor
  · rw [Seller.create_stocks, hml]
  · rw [market_create_stocks_eq, Seller.create_stocks, hml]
    rfl

/-- Claim C10 witness: a lone malformed record aborts both channels. -/
theorem claim_C10_witness :
    Seller.create_stocks [⟨"A1", "abc", "p"⟩] ["A1"] = none ∧
    Market.create_stocks [⟨"A1", "abc", "p"⟩] ["A1"] "WH" "D" = none :=
  claim_C10 [] [] ⟨"A1", "abc", "p"⟩ ["A1"] "WH" "D" (by decide) (by decide)
    (by decide) (by decide) (by intro r hr; simp at hr)

end SellerApis
namespace SellerApis

theorem create_stocks_single (c q p wh date : String) (v : Int)
    (hv : stockFromQuantity q = some v) :
    Seller.create_stocks [⟨c, q, p⟩] [c] = some ([⟨c, v⟩], []) ∧
    Market.create_stocks [⟨c, q, p⟩] [c] wh date =
      some ([⟨c, wh, [⟨v, "FIT", date⟩]⟩], []) := by
  have hs : Seller.create_stocks [⟨c, q, p⟩] [c] = some ([⟨c, v⟩], []) := by
    rw [Seller.create_stocks, Seller.matchLoop]
    simp [hv, Seller.matchLoop]
  refine ⟨hs, ?_⟩
  rw [market_create_stocks_eq, hs]
  simp [toMarketStock]

/-- Claim C5: the threshold rule maps the more-than-ten token to 100 and the
one-unit token to 0, parses every other quantity as a literal integer
(so 7, 0 and 15 map to themselves), and is the count rule of the
create_stocks of both channels. -/
theorem claim_C5 :
    stockFromQuantity ">10" = some 100 ∧
    stockFromQuantity "1" = some 0 ∧
    (∀ q : String, q ≠ "1" → q.data ≠ [] → q.data.all Char.isDigit →
      stockFromQuantity q = some (digitsToNat q.data)) ∧
    stockFromQuantity "7" = some 7 ∧
    stockFromQuantity "0" = some 0 ∧
    stockFromQuantity "15" = some 15 ∧
    (∀ (c q p wh date : String) (v : Int), stockFromQuantity q = some v →
      Seller.create_stocks [⟨c, q, p⟩] [c] = some ([⟨c, v⟩], []) ∧
      Market.create_stocks [⟨c, q, p⟩] [c] wh date =
        some ([⟨c, wh, [⟨v, "FIT", date⟩]⟩], [])) :=
  ⟨by decide, by decide, stockFromQuantity_digits, by decide, by decide, by decide,
   fun c q p wh date v hv => create_stocks_single c q p wh date v hv⟩

/-- Claim C5 witness: the literal-integer branch at quantity "2" and the
single-record channel runs at quantity "7". -/
theorem claim_C5_witness :
    stockFromQuantity "2" = some (digitsToNat "2".data) ∧
    Seller.create_stocks [⟨"A9", "7", "p"⟩] ["A9"] = some ([⟨"A9", 7⟩], []) :=
  ⟨claim_C5.2.2.1 "2" (by decide) (by decide) (by decide),
   (claim_C5.2.2.2.2.2.2 "A9" "7" "p" "W" "D" 7 (by decide)).1⟩

theorem beforeFirstDot_eq_takeWhile : ∀ l : List Char,
    Seller.beforeFirstDot l = l.takeWhile (fun c => c != Char.ofNat 46)
  | [] => rfl
  | c :: cs => by
    rw [Seller.beforeFirstDot, List.takeWhile_cons]
    by_cases hc : c = Char.ofNat 46
    · subst hc; simp
    · simp [hc, beforeFirstDot_eq_takeWhile cs]

/-- Claim C6: price_conversion keeps exactly the decimal digits of the part of
the string before the first dot, discarding the fraction; on the two
documented examples it yields 5990 and 100. -/
theorem claim_C6 :
    (∀ p : String, Seller.price_conversion p =
      String.mk ((p.data.takeWhile (fun c => c != Char.ofNat 46)).filter Char.isDigit)) ∧
    Seller.price_conversion "5\x27990.00 руб." = "5990" ∧
    Seller.price_conversion "100 руб." = "100" :=
  ⟨fun p => by rw [Seller.price_conversion, beforeFirstDot_eq_takeWhile],
   by decide, by decide⟩

/-- Claim C7: a price string with no digit before the first dot converts to the
empty string, and seller.create_prices then emits the record with the
empty string as its price field instead of treating the record as an
error, while market.create_prices raises ValueError, aborting the whole
list rather than skipping the one record. -/
theorem claim_C7 :
    Seller.price_conversion "руб." = "" ∧
    Seller.create_prices [⟨"A1", "5", "руб."⟩] ["A1"] =
      [⟨"UNKNOWN", "RUB", "A1", "0", ""⟩] ∧
    Market.create_prices [⟨"A1", "5", "руб."⟩] ["A1"] = none := by
  decide

/-- Claim C2: in seller.main the one offer_ids list is reused after
create_stocks emptied it, so the composed run yields no price entry at
all, although the intersection of feed codes and initial remote SKUs is
nonempty, as the price list create_prices would build from the intact
list shows. -/
theorem claim_C2 :
    Seller.main_reconcile [⟨"A1", ">10", "100.00 x"⟩] ["A1"] =
      some ([⟨"A1", 100⟩], []) ∧
    Seller.create_prices [⟨"A1", ">10", "100.00 x"⟩] ["A1"] =
      [⟨"UNKNOWN", "RUB", "A1", "0", "100"⟩] := by
  decide

end SellerApis
namespace SellerApis

theorem divide_length {α : Type} (lst : List α) (n : Nat) :
    (Seller.divide lst n).length = (lst.length + n - 1) / n := by
  rw [Seller.divide, List.length_map, List.length_range]

theorem divide_nil {α : Type} (n : Nat) : Seller.divide ([] : List α) n = [] := by
  rw [Seller.divide]
  have h : (List.length ([] : List α) + n - 1) / n = 0 := by
    rw [List.length_nil]
    rcases Nat.eq_zero_or_pos n with hz | hp
    · subst hz; simp
    · exact Nat.div_eq_of_lt (by omega)
  rw [h]
  rfl

theorem divide_cons {α : Type} (lst : List α) (n : Nat) (hn : 0 < n) (hne : lst ≠ []) :
    Seller.divide lst n = lst.take n :: Seller.divide (lst.drop n) n := by
  have hlen : 1 ≤ lst.length := List.length_pos.mpr hne
  have hc1 : (lst.length + n - 1) / n = (lst.length - 1) / n + 1 := by
    have h1 : lst.length + n - 1 = (lst.length - 1) + n := by omega
    rw [h1, Nat.add_div_right _ hn]
  have hc2 : ((lst.drop n).length + n - 1) / n = (lst.length - 1) / n := by
    rw [List.length_drop]
    by_cases hle : n ≤ lst.length
    · have h1 : lst.length - n + n - 1 = lst.length - 1 := by omega
      rw [h1]
    · have h1 : lst.length - n + n - 1 = n - 1 := by omega
      rw [h1, Nat.div_eq_of_lt (by omega), Nat.div_eq_of_lt (by omega)]
  rw [Seller.divide, Seller.divide, hc1, hc2, List.range_succ_eq_map, List.map_cons]
  congr 1
  · simp
  · rw [List.map_map]
    refine List.map_congr_left ?_
    intro i hi
    have hmul : Nat.succ i * n = i * n + n := Nat.succ_mul i n
    simp only [Function.comp, List.drop_drop]
    rw [hmul, Nat.add_comm (i * n) n]

theorem divide_join_aux {α : Type} (n : Nat) (hn : 0 < n) :
    ∀ (fuel : Nat) (lst : List α), lst.length ≤ fuel → (Seller.divide lst n).flatten = lst := by
  intro fuel
  induction fuel with
  | zero =>
    intro lst h
    have hnil : lst = [] := List.eq_nil_of_length_eq_zero (by omega)
    subst hnil
    rw [divide_nil]
    rfl
  | succ k ih =>
    intro lst h
    by_cases hne : lst = []
    · subst hne
      rw [divide_nil]
      rfl
    · rw [divide_cons lst n hn hne]
      have hlen : 1 ≤ lst.length := List.length_pos.mpr hne
      have hrec := ih (lst.drop n) (by rw [List.length_drop]; omega)
      rw [List.flatten_cons, hrec]
      exact List.take_append_drop n lst

theorem divide_getD {α : Type} (lst : List α) (n : Nat) (hn : 0 < n) (i : Nat) :
    (Seller.divide lst n).getD i [] = (lst.drop (i * n)).take n := by
  rw [List.getD_eq_getElem?_getD, Seller.divide, List.getElem?_map]
  by_cases hi : i < (lst.length + n - 1) / n
  · rw [List.getElem?_range hi]
    rfl
  · have hnone : (List.range ((lst.length + n - 1) / n))[i]? = none := by
      rw [List.getElem?_eq_none]
      rw [List.length_range]
      omega
    rw [hnone]
    have hge : lst.length ≤ i * n := by
      by_cases hz : lst.length = 0
      · omega
      · have h1 : (lst.length + n - 1) / n = (lst.length - 1) / n + 1 := by
          have he : lst.length + n - 1 = (lst.length - 1) + n := by omega
          rw [he, Nat.add_div_right _ hn]
        have h2 : (lst.length - 1) / n + 1 ≤ i := by omega
        have h3 : ((lst.length - 1) / n + 1) * n ≤ i * n := Nat.mul_le_mul_right n h2
        have h4 := Nat.div_add_mod (lst.length - 1) n
        have h5 : (lst.length - 1) % n < n := Nat.mod_lt _ hn
        have h6 : ((lst.length - 1) / n + 1) * n = (lst.length - 1) / n * n + n := by ring
        have h7 : (lst.length - 1) / n * n = n * ((lst.length - 1) / n) := by ring
        omega
    rw [List.drop_eq_nil_of_le hge]
    simp

theorem divide_chunk_le {α : Type} (lst : List α) (n : Nat) (c : List α)
    (hc : c ∈ Seller.divide lst n) : c.length ≤ n := by
  rw [Seller.divide] at hc
  rw [List.mem_map] at hc
  obtain ⟨i, _, rfl⟩ := hc
  rw [List.length_take]
  omega

theorem divide_full_chunk {α : Type} (lst : List α) (n : Nat) (hn : 0 < n) (i : Nat)
    (hi : i + 1 < (Seller.divide lst n).length) :
    ((Seller.divide lst n).getD i []).length = n := by
  rw [divide_getD lst n hn i, List.length_take, List.length_drop]
  rw [divide_length] at hi
  have h2 : i + 2 ≤ (lst.length + n - 1) / n := by omega
  have h3 : (i + 2) * n ≤ (lst.length + n - 1) / n * n := Nat.mul_le_mul_right n h2
  have h4 := Nat.div_add_mod (lst.length + n - 1) n
  have h5 : (lst.length + n - 1) % n < n := Nat.mod_lt _ hn
  have h6 : (i + 2) * n = i * n + n + n := by ring
  have h7 : (lst.length + n - 1) / n * n = n * ((lst.length + n - 1) / n) := by ring
  omega

theorem divide_single {α : Type} (lst : List α) (n : Nat) (hn : 0 < n) (hne : lst ≠ [])
    (hle : lst.length ≤ n) : Seller.divide lst n = [lst] := by
  rw [divide_cons lst n hn hne, List.drop_eq_nil_of_le hle, divide_nil,
    List.take_of_length_le hle]

end SellerApis
namespace SellerApis

/-- Claim C8: for positive n, divide yields the contiguous slices of lst in
order: the empty list gives no slice, otherwise the first slice is the
first n elements and the rest is divide of the remainder; the i-th slice
is lst[i * n : i * n + n]; the concatenation restores lst; every slice
has length at most n and every slice but possibly the last exactly n; a
list no longer than n comes back as the single batch [lst]; and
[1, 2, 3, 4, 5] in slices of 2 is [[1, 2], [3, 4], [5]]. -/
theorem claim_C8 {α : Type} (lst : List α) (n : Nat) (hn : 0 < n) :
    Seller.divide ([] : List α) n = [] ∧
    (lst ≠ [] → Seller.divide lst n = lst.take n :: Seller.divide (lst.drop n) n) ∧
    (Seller.divide lst n).flatten = lst ∧
    (∀ c ∈ Seller.divide lst n, c.length ≤ n) ∧
    (∀ i, (Seller.divide lst n).getD i [] = (lst.drop (i * n)).take n) ∧
    (∀ i, i + 1 < (Seller.divide lst n).length →
      ((Seller.divide lst n).getD i []).length = n) ∧
    (lst ≠ [] → lst.length ≤ n → Seller.divide lst n = [lst]) ∧
    Seller.divide [1, 2, 3, 4, 5] 2 = [[1, 2], [3, 4], [5]] :=
  ⟨divide_nil n,
   fun hne => divide_cons lst n hn hne,
   divide_join_aux n hn lst.length lst (Nat.le_refl _),
   fun c hc => divide_chunk_le lst n c hc,
   fun i => divide_getD lst n hn i,
   fun i hi => divide_full_chunk lst n hn i hi,
   fun hne hle => divide_single lst n hn hne hle,
   by decide⟩

/-- Claim C8 witness: the documented example, size 2 over five elements. -/
theorem claim_C8_witness :
    (Seller.divide [1, 2, 3, 4, 5] 2).flatten = [1, 2, 3, 4, 5] ∧
    (∀ c ∈ Seller.divide [1, 2, 3, 4, 5] 2, c.length ≤ 2) :=
  ⟨(claim_C8 [1, 2, 3, 4, 5] 2 (by decide)).2.2.1,
   (claim_C8 [1, 2, 3, 4, 5] 2 (by decide)).2.2.2.1⟩

end SellerApis
